import Mathlib

/-!
# Verification of `chanleakcheck` (CVE-2019-12999 audit tool)

Shallow embedding of `main.go` of `lightninglabs/chanleakcheck`.  The tool
audits an `lnd` node in three stages:

1. build a subjective view of the node's open channels (a Go map from
   `lnwire.ShortChannelID` to `btcutil.Amount`),
2. compare each channel's subjective capacity against the authoritative
   channel graph (`GetChanInfo`), collecting an invalid-channel set, and
3. if any channel is invalid, fold the node's forwarding history into a
   per-channel loss ledger (`chanForwardHistory`) and sum it to a total loss.

All RPC collaborators are modelled as explicit inputs: the channel listing
and the forwarding history as `Option`-wrapped lists (fatal on `none`), and
the per-channel graph query as a function `ShortChannelID → Option Int`
(`none` models both a failed query and a not-found answer, which the Go
client surfaces identically as an `err`).

Machine integers: `uint64` fields are modelled as `Nat`, `int64`
(`btcutil.Amount`) values as `Int`, with wrapping made explicit through
`wrap64` / `i64add` / `i64neg` / `toInt64` / `u64sub` at each operation the
Go code performs on them.
-/

/-- Two to the sixty-fourth power, the modulus of 64-bit machine arithmetic. -/
def two64 : Int := 18446744073709551616

/-- Two to the sixty-third power, the magnitude of the smallest `int64`. -/
def two63 : Int := 9223372036854775808

/-- Normalize an integer into the `int64` value range `[-2^63, 2^63)`,
modelling two's-complement wraparound of Go `int64` arithmetic. -/
def wrap64 (x : Int) : Int := (x + two63) % two64 - two63

/-- Reinterpret a `uint64` bit pattern as an `int64`, modelling the Go
conversion `btcutil.Amount(u)` for `u : uint64`. -/
def toInt64 (n : Nat) : Int := wrap64 (n : Int)

/-- Go `int64` negation (wraps at the minimal value). -/
def i64neg (x : Int) : Int := wrap64 (-x)

/-- Go `int64` addition (wraps on overflow); this is the `+=` used on the
`chanForwardHistory` map entries and on `totalLoss`. -/
def i64add (x y : Int) : Int := wrap64 (x + y)

/-- Go `uint64` subtraction `a - b` (wraps modulo `2^64`), as in
`fwdEvent.AmtIn - fwdEvent.Fee`. -/
def u64sub (a b : Nat) : Nat :=
  (a % 18446744073709551616 + (18446744073709551616 - b % 18446744073709551616)) %
    18446744073709551616

theorem wrap64_idem (x : Int) : wrap64 (wrap64 x) = wrap64 x := by
  unfold wrap64 two63 two64
  omega

theorem wrap64_add_left (x y : Int) : wrap64 (wrap64 x + y) = wrap64 (x + y) := by
  unfold wrap64 two63 two64
  omega

theorem wrap64_add_right (x y : Int) : wrap64 (x + wrap64 y) = wrap64 (x + y) := by
  unfold wrap64 two63 two64
  omega

theorem i64add_i64add_comm (v a b : Int) : i64add (i64add v a) b = i64add (i64add v b) a := by
  unfold i64add
  rw [wrap64_add_left, wrap64_add_left]
  ring_nf

example : wrap64 9223372036854775808 = -9223372036854775808 := by decide
example : toInt64 99900 = 99900 := by decide
example : i64neg (toInt64 (u64sub 100000 100)) = -99900 := by decide

/-- `lnwire.ShortChannelID`: the structured triple (block height, transaction
index, output index) encoding of a channel identifier.  The Go struct stores
`BlockHeight : uint32`, `TxIndex : uint32`, `TxPosition : uint16`. -/
structure ShortChannelID where
  blockHeight : Nat
  txIndex : Nat
  txPosition : Nat
deriving DecidableEq

/-- `lnwire.NewShortChanIDFromInt`: decode a raw 64-bit channel id into the
structured triple.  The `% 2^32` / `% 2^16` factors model the Go `uint32` /
`uint16` conversions applied to each extracted component. -/
def NewShortChanIDFromInt (chanID : Nat) : ShortChannelID where
  blockHeight := (chanID >>> 40) % 4294967296
  txIndex := ((chanID >>> 16) &&& 0xFFFFFF) % 4294967296
  txPosition := (chanID &&& 0xFFFF) % 65536

/-- `lnwire.ShortChannelID.ToUint64`: re-encode the structured triple as a raw
64-bit integer.  The component `%` factors model the `uint32` / `uint16` field
types and the outer `% 2^64` models the `uint64` result type. -/
def ShortChannelID.toUint64 (c : ShortChannelID) : Nat :=
  (((c.blockHeight % 4294967296) <<< 40) ||| ((c.txIndex % 4294967296) <<< 16) |||
    (c.txPosition % 65536)) % 18446744073709551616

example : NewShortChanIDFromInt 1 = ⟨0, 0, 1⟩ := by decide
example : (NewShortChanIDFromInt 0x0123456789ABCDEF).toUint64 = 0x0123456789ABCDEF := by decide

theorem shiftRight40_lt (n : Nat) (h : n < 18446744073709551616) :
    n >>> 40 < 16777216 := by
  rw [Nat.shiftRight_eq_div_pow]
  exact Nat.div_lt_of_lt_mul (by norm_num at h ⊢; omega)

theorem toUint64_fromInt_aux (n : Nat) :
    (n >>> 40) <<< 40 ||| ((n >>> 16) % 16777216) <<< 16 ||| (n % 65536) = n := by
  apply Nat.eq_of_testBit_eq
  intro i
  have e24 : (16777216 : Nat) = 2 ^ 24 := by norm_num
  have e16 : (65536 : Nat) = 2 ^ 16 := by norm_num
  simp only [Nat.testBit_or, Nat.testBit_shiftLeft, Nat.testBit_shiftRight, e24, e16,
    Nat.testBit_mod_two_pow]
  rcases Nat.lt_or_ge i 16 with hi | hi
  · have h40 : ¬(40 ≤ i) := by omega
    have h16 : ¬(16 ≤ i) := by omega
    simp [h40, h16, hi]
  rcases Nat.lt_or_ge i 40 with hi' | hi'
  · have h40 : ¬(40 ≤ i) := by omega
    have h16 : 16 ≤ i := hi
    have hlt : i - 16 < 24 := by omega
    have hidx : 16 + (i - 16) = i := by omega
    have hni : ¬(i < 16) := by omega
    simp [h40, h16, hlt, hidx, hni]
  · have h40 : 40 ≤ i := hi'
    have hidx : 40 + (i - 40) = i := by omega
    have hni : ¬(i < 16) := by omega
    have hlt : ¬(i - 16 < 24) := by omega
    simp [h40, hidx, hni, hlt]

/-- `lnrpc.ForwardingEvent`, restricted to the fields `main.go` reads.  All
five fields are `uint64` in the protobuf definition. -/
structure ForwardingEvent where
  chanIdIn : Nat
  chanIdOut : Nat
  amtIn : Nat
  amtOut : Nat
  fee : Nat
deriving DecidableEq

/-- Point update of a total function, modelling assignment `m[k] = v` into a
Go map read back with a zero default. -/
def mapUpdate {α β : Type} [DecidableEq α] (m : α → β) (k : α) (v : β) : α → β :=
  fun c => if c = k then v else m c

/-- The `chanForwardHistory` Go map: its key set (the channels that have an
entry) together with the entry values (`0` for absent keys, matching the Go
map's zero-value read used by `+=`). -/
@[ext]
structure LossLedger where
  keys : Finset ShortChannelID
  val : ShortChannelID → Int

/-- One iteration of the forwarding-history loop (`main.go` lines 157-184):
skip the event when neither leg is in `invalidChannels`; otherwise do
`chanForwardHistory[cidIn] += -btcutil.Amount(fwdEvent.AmtIn - fwdEvent.Fee)`
followed by
`chanForwardHistory[cidOut] += btcutil.Amount(fwdEvent.AmtOut)`.
Note that the two `+=` lines are unconditional once the event passes the
either-leg filter: they are not individually guarded by the invalidity of
their own leg. -/
def processForwardingEvent (invalidChannels : Finset ShortChannelID)
    (acc : LossLedger) (fwdEvent : ForwardingEvent) : LossLedger :=
  let cidIn := NewShortChanIDFromInt fwdEvent.chanIdIn
  let cidOut := NewShortChanIDFromInt fwdEvent.chanIdOut
  if ¬(cidIn ∈ invalidChannels ∨ cidOut ∈ invalidChannels) then acc
  else
    let acc1 : LossLedger :=
      { keys := insert cidIn acc.keys
        val := mapUpdate acc.val cidIn
          (i64add (acc.val cidIn) (i64neg (toInt64 (u64sub fwdEvent.amtIn fwdEvent.fee)))) }
    { keys := insert cidOut acc1.keys
      val := mapUpdate acc1.val cidOut (i64add (acc1.val cidOut) (toInt64 fwdEvent.amtOut)) }

/-- The full forwarding-history fold building the `chanForwardHistory` map
from an empty map. -/
def chanForwardHistory (invalidChannels : Finset ShortChannelID)
    (forwardingEvents : List ForwardingEvent) : LossLedger :=
  forwardingEvents.foldl (processForwardingEvent invalidChannels) ⟨∅, fun _ => 0⟩

instance : Std.Commutative i64add :=
  ⟨fun x y => by unfold i64add; ring_nf⟩

instance : Std.Associative i64add :=
  ⟨fun x y z => by
    unfold i64add
    rw [wrap64_add_left, wrap64_add_right]
    ring_nf⟩

/-- The `totalLoss` summation loop (`main.go` lines 188-193): fold `int64`
addition (`totalLoss += amtLost`) over every ledger entry, starting from
zero.  The iteration order of the Go map is unspecified; `i64add` is
commutative and associative, so the fold over the key set is well defined
and equals the loop's result for every iteration order. -/
def computeTotalLoss (ledger : LossLedger) : Int :=
  ledger.keys.fold i64add 0 ledger.val

/-- The `subjectiveChanView` Go map (`main.go` lines 81-86): the list of
channel ids present as keys (insertion order, no duplicates) and the
capacity stored under each key. -/
structure SubjectiveChanView where
  keys : List ShortChannelID
  cap : ShortChannelID → Int

/-- One iteration of the subjective-view loop: convert the listed channel's
raw id and store its capacity, `subjectiveChanView[cid] = channel.Capacity`.
A repeated key overwrites the stored capacity (last write wins). -/
def viewInsertChannel (view : SubjectiveChanView) (channel : Nat × Int) : SubjectiveChanView :=
  let cid := NewShortChanIDFromInt channel.1
  { keys := if cid ∈ view.keys then view.keys else view.keys ++ [cid]
    cap := mapUpdate view.cap cid channel.2 }

/-- The Subjective View Builder: fold the `ListChannels` response (pairs of
raw `ChanId` and `Capacity`) into the `subjectiveChanView` map. -/
def buildSubjectiveChanView (channels : List (Nat × Int)) : SubjectiveChanView :=
  channels.foldl viewInsertChannel ⟨[], fun _ => 0⟩

/-- A diagnostic record logged by the Invalidity Detector.

* `lookupFailure cid` models the line
  `log.Printf("unable to obtain graph channel for cid(%v): %v", cid, err)`,
  which does carry the channel id.
* `fakeChannel cidArg actual subjective` models the
  `**** FAKE CHANNEL FOUND ****` block.  Its `CID` line is
  `log.Printf("CID: %v")` — the format string has a `%v` verb but the call
  passes no operand, so the record carries no channel id: `cidArg` is the
  (empty) operand of that line and is always `none` as emitted. -/
inductive Diagnostic where
  | lookupFailure (cid : ShortChannelID)
  | fakeChannel (cidArg : Option ShortChannelID) (actualValue subjectiveValue : Int)
deriving DecidableEq

/-- State threaded through the Invalidity Detector loop: the
`invalidChannels` set under construction and the log lines emitted so far. -/
structure DetectorState where
  invalidChannels : Finset ShortChannelID
  diagnostics : List Diagnostic

/-- One iteration of the detector loop (`main.go` lines 96-127) for channel
`cid`: a failed `GetChanInfo` (also covering not-found) logs and classifies
the channel invalid; a successful reply classifies it invalid exactly when
the graph capacity differs from the subjective capacity, logging the
fake-channel block. -/
def detectStep (getChanInfo : ShortChannelID → Option Int) (view : SubjectiveChanView)
    (st : DetectorState) (cid : ShortChannelID) : DetectorState :=
  match getChanInfo cid with
  | none =>
    { invalidChannels := insert cid st.invalidChannels
      diagnostics := st.diagnostics ++ [Diagnostic.lookupFailure cid] }
  | some graphCapacity =>
    if graphCapacity ≠ view.cap cid then
      { invalidChannels := insert cid st.invalidChannels
        diagnostics := st.diagnostics ++
          [Diagnostic.fakeChannel none graphCapacity (view.cap cid)] }
    else st

/-- The Invalidity Detector: iterate `detectStep` over every channel of the
subjective view, starting from an empty invalid set and no diagnostics. -/
def runDetector (getChanInfo : ShortChannelID → Option Int)
    (view : SubjectiveChanView) : DetectorState :=
  view.keys.foldl (detectStep getChanInfo view) ⟨∅, []⟩

/-- Outcome of the audit: either the explicit "not affected" report
(`main.go` lines 132-135) or the loss report with its ledger and total. -/
inductive AuditResult where
  | notAffected
  | affected (lossLedger : LossLedger) (totalLoss : Int)

/-- The whole `main` pipeline.  The channel listing and the forwarding
history are `Option`-wrapped: `none` models a failed RPC, which is fatal
(`log.Fatalf`) and yields no result.  The per-channel `getChanInfo`
capability is consulted inside the detector and is never fatal.  When no
invalid channel is found the forwarding history is not consulted at all. -/
def runAudit (channelsListing : Option (List (Nat × Int)))
    (getChanInfo : ShortChannelID → Option Int)
    (forwardingHistory : Option (List ForwardingEvent)) : Option AuditResult :=
  match channelsListing with
  | none => none
  | some channels =>
    let subjectiveChanView := buildSubjectiveChanView channels
    let det := runDetector getChanInfo subjectiveChanView
    if det.invalidChannels = ∅ then some AuditResult.notAffected
    else
      match forwardingHistory with
      | none => none
      | some forwardingEvents =>
        let ledger := chanForwardHistory det.invalidChannels forwardingEvents
        some (AuditResult.affected ledger (computeTotalLoss ledger))

/-- Observation: the total loss printed by `log.Printf("Amount lost: %v")`,
when the audit reached that line. -/
def reportedTotalLoss : Option AuditResult → Option Int
  | some (AuditResult.affected _ t) => some t
  | _ => none

/-- Observation: the per-channel loss line
`log.Printf("FakeChannel(%v) resulted in loss of: %v", chanID, amtLost)` —
`some` exactly when the ledger has an entry for the channel. -/
def reportedChannelLoss (r : Option AuditResult) (cid : ShortChannelID) : Option Int :=
  match r with
  | some (AuditResult.affected ledger _) =>
    if cid ∈ ledger.keys then some (ledger.val cid) else none
  | _ => none

/-- Channel `A` of the spec's end-to-end scenario, with raw id `1`. -/
def cidA : ShortChannelID := NewShortChanIDFromInt 1

/-- Channel `B` of the spec's end-to-end scenario, with raw id `2`. -/
def cidB : ShortChannelID := NewShortChanIDFromInt 2

/-- The scenario's single forwarding event: inbound over `A` with
amount-in `100000` and fee `100`, outbound over `B` with amount-out
`99900`. -/
def evAB : ForwardingEvent :=
  { chanIdIn := 1, chanIdOut := 2, amtIn := 100000, amtOut := 99900, fee := 100 }

example : (runDetector (fun _ => none) (buildSubjectiveChanView [(1, 500000)])).invalidChannels
    = {cidA} := by decide
example : (chanForwardHistory {cidA} [evAB]).val cidA = -99900 := by decide
example : (chanForwardHistory {cidA} [evAB]).val cidB = 99900 := by decide
example : cidB ∈ (chanForwardHistory {cidA} [evAB]).keys := by decide
example : computeTotalLoss (chanForwardHistory {cidA} [evAB]) = 0 := by decide
example : reportedTotalLoss (runAudit (some [(1, 500000)]) (fun _ => none) (some [evAB]))
    = some 0 := by decide
example : reportedChannelLoss (runAudit (some [(1, 500000)]) (fun _ => none) (some [evAB])) cidB
    = some 99900 := by decide

/-- The spec's per-channel invalidity condition: the authoritative query
fails or answers not-found (`none`), or it answers a capacity different from
the subjective one. -/
def invalidCond (getChanInfo : ShortChannelID → Option Int) (view : SubjectiveChanView)
    (c : ShortChannelID) : Prop :=
  getChanInfo c = none ∨ ∃ cap, getChanInfo c = some cap ∧ cap ≠ view.cap c

theorem mem_detectStep_invalid (g : ShortChannelID → Option Int) (view : SubjectiveChanView)
    (st : DetectorState) (cid c : ShortChannelID) :
    c ∈ (detectStep g view st cid).invalidChannels ↔
      c ∈ st.invalidChannels ∨ (c = cid ∧ invalidCond g view c) := by
  unfold detectStep invalidCond
  by_cases hc : c = cid
  · subst hc
    cases hg : g c with
    | none => simp [hg]
    | some cap =>
      by_cases hne : cap ≠ view.cap c
      · simp [hg, hne]
      · push_neg at hne
        simp [hg, hne]
  · cases hg : g cid with
    | none => simp [hc]
    | some cap =>
      by_cases hne : cap ≠ view.cap cid
      · simp [hne, hc]
      · simp [hne, hc]

theorem mem_foldl_detectStep (g : ShortChannelID → Option Int) (view : SubjectiveChanView)
    (cids : List ShortChannelID) (st : DetectorState) (c : ShortChannelID) :
    c ∈ (cids.foldl (detectStep g view) st).invalidChannels ↔
      c ∈ st.invalidChannels ∨ (c ∈ cids ∧ invalidCond g view c) := by
  induction cids generalizing st with
  | nil => simp
  | cons cid rest ih =>
    rw [List.foldl_cons, ih, mem_detectStep_invalid]
    constructor
    · rintro ((h | ⟨rfl, h⟩) | ⟨h1, h2⟩)
      · exact Or.inl h
      · exact Or.inr ⟨List.mem_cons_self _ _, h⟩
      · exact Or.inr ⟨List.mem_cons_of_mem _ h1, h2⟩
    · rintro (h | ⟨h1, h2⟩)
      · exact Or.inl (Or.inl h)
      · rcases List.mem_cons.mp h1 with rfl | h1
        · exact Or.inl (Or.inr ⟨rfl, h2⟩)
        · exact Or.inr ⟨h1, h2⟩

/-- Complete characterization of `invalidChannels`: a channel is classified
invalid exactly when it is in the subjective view and satisfies the
per-channel invalidity condition; the classification depends on no other
channel. -/
theorem mem_runDetector_invalid (g : ShortChannelID → Option Int) (view : SubjectiveChanView)
    (c : ShortChannelID) :
    c ∈ (runDetector g view).invalidChannels ↔ c ∈ view.keys ∧ invalidCond g view c := by
  unfold runDetector
  rw [mem_foldl_detectStep]
  simp

theorem lookupFailure_mem_detectStep (g : ShortChannelID → Option Int)
    (view : SubjectiveChanView) (st : DetectorState) (cid c : ShortChannelID) :
    Diagnostic.lookupFailure c ∈ (detectStep g view st cid).diagnostics ↔
      Diagnostic.lookupFailure c ∈ st.diagnostics ∨ (c = cid ∧ g c = none) := by
  unfold detectStep
  by_cases hc : c = cid
  · subst hc
    cases hg : g c with
    | none => simp [hg]
    | some cap =>
      by_cases hne : cap ≠ view.cap c
      · simp [hg, hne]
      · simp [hg, hne]
  · cases hg : g cid with
    | none => simp [hc, Ne.symm hc]
    | some cap =>
      by_cases hne : cap ≠ view.cap cid
      · simp [hne, hc]
      · simp [hne, hc]

theorem lookupFailure_mem_foldl (g : ShortChannelID → Option Int) (view : SubjectiveChanView)
    (cids : List ShortChannelID) (st : DetectorState) (c : ShortChannelID) :
    Diagnostic.lookupFailure c ∈ (cids.foldl (detectStep g view) st).diagnostics ↔
      Diagnostic.lookupFailure c ∈ st.diagnostics ∨ (c ∈ cids ∧ g c = none) := by
  induction cids generalizing st with
  | nil => simp
  | cons cid rest ih =>
    rw [List.foldl_cons, ih, lookupFailure_mem_detectStep]
    constructor
    · rintro ((h | ⟨rfl, h⟩) | ⟨h1, h2⟩)
      · exact Or.inl h
      · exact Or.inr ⟨List.mem_cons_self _ _, h⟩
      · exact Or.inr ⟨List.mem_cons_of_mem _ h1, h2⟩
    · rintro (h | ⟨h1, h2⟩)
      · exact Or.inl (Or.inl h)
      · rcases List.mem_cons.mp h1 with rfl | h1
        · exact Or.inl (Or.inr ⟨rfl, h2⟩)
        · exact Or.inr ⟨h1, h2⟩

/-- A failed per-channel lookup is always answered with a logged diagnostic
that carries the channel id. -/
theorem lookupFailure_mem_runDetector (g : ShortChannelID → Option Int)
    (view : SubjectiveChanView) (c : ShortChannelID) :
    Diagnostic.lookupFailure c ∈ (runDetector g view).diagnostics ↔
      c ∈ view.keys ∧ g c = none := by
  unfold runDetector
  rw [lookupFailure_mem_foldl]
  simp

/-- The filter of the forwarding loop: an event is folded into the ledger
exactly when one of its legs is in the invalid set. -/
def eventGuard (invalidChannels : Finset ShortChannelID) (fwdEvent : ForwardingEvent) : Prop :=
  NewShortChanIDFromInt fwdEvent.chanIdIn ∈ invalidChannels ∨
    NewShortChanIDFromInt fwdEvent.chanIdOut ∈ invalidChannels

instance (inv : Finset ShortChannelID) (ev : ForwardingEvent) : Decidable (eventGuard inv ev) :=
  inferInstanceAs (Decidable (_ ∨ _))

/-- The `int64` amount added to the inbound channel's ledger entry:
`-btcutil.Amount(fwdEvent.AmtIn - fwdEvent.Fee)`. -/
def addendIn (fwdEvent : ForwardingEvent) : Int :=
  i64neg (toInt64 (u64sub fwdEvent.amtIn fwdEvent.fee))

/-- The `int64` amount added to the outbound channel's ledger entry:
`btcutil.Amount(fwdEvent.AmtOut)`. -/
def addendOut (fwdEvent : ForwardingEvent) : Int :=
  toInt64 fwdEvent.amtOut

theorem keys_processForwardingEvent (inv : Finset ShortChannelID) (acc : LossLedger)
    (ev : ForwardingEvent) :
    (processForwardingEvent inv acc ev).keys =
      if eventGuard inv ev
      then insert (NewShortChanIDFromInt ev.chanIdOut)
        (insert (NewShortChanIDFromInt ev.chanIdIn) acc.keys)
      else acc.keys := by
  unfold processForwardingEvent eventGuard
  by_cases hg : NewShortChanIDFromInt ev.chanIdIn ∈ inv ∨ NewShortChanIDFromInt ev.chanIdOut ∈ inv
  · simp [hg]
  · simp [hg]

theorem val_processForwardingEvent (inv : Finset ShortChannelID) (acc : LossLedger)
    (ev : ForwardingEvent) (c : ShortChannelID) :
    (processForwardingEvent inv acc ev).val c =
      if eventGuard inv ev then
        (if c = NewShortChanIDFromInt ev.chanIdOut then
          i64add (if c = NewShortChanIDFromInt ev.chanIdIn
                  then i64add (acc.val c) (addendIn ev) else acc.val c) (addendOut ev)
         else if c = NewShortChanIDFromInt ev.chanIdIn
         then i64add (acc.val c) (addendIn ev)
         else acc.val c)
      else acc.val c := by
  unfold processForwardingEvent eventGuard addendIn addendOut mapUpdate
  by_cases hg : NewShortChanIDFromInt ev.chanIdIn ∈ inv ∨ NewShortChanIDFromInt ev.chanIdOut ∈ inv
  · simp only [hg, not_true_eq_false, if_false, if_true]
    by_cases hco : c = NewShortChanIDFromInt ev.chanIdOut <;>
      by_cases hci : c = NewShortChanIDFromInt ev.chanIdIn
    · have hoi : NewShortChanIDFromInt ev.chanIdOut = NewShortChanIDFromInt ev.chanIdIn := by
        rw [← hco, hci]
      simp [hco, hci, hoi]
    · have hoi : NewShortChanIDFromInt ev.chanIdOut ≠ NewShortChanIDFromInt ev.chanIdIn :=
        fun h => hci (hco.trans h)
      simp [hco, hci, hoi]
    · have hio : NewShortChanIDFromInt ev.chanIdIn ≠ NewShortChanIDFromInt ev.chanIdOut :=
        fun h => hco (hci.trans h)
      simp [hco, hci, hio, Ne.symm hio]
    · simp [hco, hci]
  · simp [hg]

/-- The per-event pointwise contribution to a ledger entry: `addendIn` if
the channel is the event's inbound leg, plus `addendOut` if it is the
outbound leg. -/
def eventContrib (fwdEvent : ForwardingEvent) (c : ShortChannelID) : Int :=
  (if c = NewShortChanIDFromInt fwdEvent.chanIdIn then addendIn fwdEvent else 0) +
    (if c = NewShortChanIDFromInt fwdEvent.chanIdOut then addendOut fwdEvent else 0)

set_option maxRecDepth 4000 in
theorem val_processForwardingEvent_wrap (inv : Finset ShortChannelID) (acc : LossLedger)
    (ev : ForwardingEvent) (c : ShortChannelID) :
    (processForwardingEvent inv acc ev).val c =
      if eventGuard inv ev ∧ (c = NewShortChanIDFromInt ev.chanIdIn ∨
          c = NewShortChanIDFromInt ev.chanIdOut)
      then wrap64 (acc.val c + eventContrib ev c)
      else acc.val c := by
  rw [val_processForwardingEvent]
  unfold eventContrib
  by_cases hg : eventGuard inv ev
  · rw [if_pos hg]
    by_cases hi : c = NewShortChanIDFromInt ev.chanIdIn <;>
      by_cases ho : c = NewShortChanIDFromInt ev.chanIdOut
    · have hcond : eventGuard inv ev ∧ (c = NewShortChanIDFromInt ev.chanIdIn ∨
          c = NewShortChanIDFromInt ev.chanIdOut) := ⟨hg, Or.inl hi⟩
      simp only [if_pos hi, if_pos ho, if_pos hcond, i64add, wrap64_add_left]
      rw [add_assoc]
    · have hcond : eventGuard inv ev ∧ (c = NewShortChanIDFromInt ev.chanIdIn ∨
          c = NewShortChanIDFromInt ev.chanIdOut) := ⟨hg, Or.inl hi⟩
      simp only [if_pos hi, if_neg ho, if_pos hcond, i64add, wrap64_add_left]
      rw [add_zero]
    · have hcond : eventGuard inv ev ∧ (c = NewShortChanIDFromInt ev.chanIdIn ∨
          c = NewShortChanIDFromInt ev.chanIdOut) := ⟨hg, Or.inr ho⟩
      simp only [if_neg hi, if_pos ho, if_pos hcond, i64add, wrap64_add_left]
      rw [zero_add]
    · have hcond : ¬(eventGuard inv ev ∧ (c = NewShortChanIDFromInt ev.chanIdIn ∨
          c = NewShortChanIDFromInt ev.chanIdOut)) := fun h => h.2.elim hi ho
      simp only [if_neg hi, if_neg ho, if_neg hcond]
  · have hcond : ¬(eventGuard inv ev ∧ (c = NewShortChanIDFromInt ev.chanIdIn ∨
        c = NewShortChanIDFromInt ev.chanIdOut)) := fun h => hg h.1
    simp only [if_neg hg, if_neg hcond]

theorem processForwardingEvent_comm (inv : Finset ShortChannelID) (st : LossLedger)
    (e1 e2 : ForwardingEvent) :
    processForwardingEvent inv (processForwardingEvent inv st e1) e2 =
      processForwardingEvent inv (processForwardingEvent inv st e2) e1 := by
  apply LossLedger.ext
  · rw [keys_processForwardingEvent, keys_processForwardingEvent,
      keys_processForwardingEvent, keys_processForwardingEvent]
    by_cases hg1 : eventGuard inv e1 <;> by_cases hg2 : eventGuard inv e2 <;>
      simp [hg1, hg2]
    ext x
    simp only [Finset.mem_insert]
    tauto
  · funext c
    simp only [val_processForwardingEvent_wrap]
    by_cases h1 : eventGuard inv e1 ∧ (c = NewShortChanIDFromInt e1.chanIdIn ∨
        c = NewShortChanIDFromInt e1.chanIdOut) <;>
      by_cases h2 : eventGuard inv e2 ∧ (c = NewShortChanIDFromInt e2.chanIdIn ∨
        c = NewShortChanIDFromInt e2.chanIdOut)
    · simp only [if_pos h1, if_pos h2, wrap64_add_left]
      rw [add_right_comm]
    · simp only [if_pos h1, if_neg h2]
    · simp only [if_neg h1, if_pos h2]
    · simp only [if_neg h1, if_neg h2]

theorem chanForwardHistory_perm (inv : Finset ShortChannelID) {l1 l2 : List ForwardingEvent}
    (p : l1.Perm l2) : chanForwardHistory inv l1 = chanForwardHistory inv l2 :=
  p.foldl_eq' (fun x _ y _ z => processForwardingEvent_comm inv z x y) _

theorem mapUpdate_eq_update {α β : Type} [DecidableEq α] (m : α → β) (k : α) (v : β) :
    mapUpdate m k v = Function.update m k v := by
  funext c
  simp [mapUpdate, Function.update_apply]

theorem fold_i64add_eq_wrap_sum (s : Finset ShortChannelID) (g : ShortChannelID → Int) :
    s.fold i64add 0 g = wrap64 (s.sum g) := by
  induction s using Finset.induction_on with
  | empty => simp only [Finset.fold_empty, Finset.sum_empty]; decide
  | insert h ih =>
    rw [Finset.fold_insert h, Finset.sum_insert h, ih]
    show wrap64 _ = _
    rw [wrap64_add_right]

theorem computeTotalLoss_eq_wrap_sum (ledger : LossLedger) :
    computeTotalLoss ledger = wrap64 (ledger.keys.sum ledger.val) :=
  fold_i64add_eq_wrap_sum ledger.keys ledger.val

theorem wrap64_eq_zero_of_emod (x : Int) (h : x % 18446744073709551616 = 0) : wrap64 x = 0 := by
  unfold wrap64 two63 two64
  omega

/-- The net amount an event contributes to the sum of all ledger entries:
zero for a skipped event, inbound addend plus outbound addend for a
processed one. -/
def netDelta (invalidChannels : Finset ShortChannelID) (fwdEvent : ForwardingEvent) : Int :=
  if eventGuard invalidChannels fwdEvent then addendIn fwdEvent + addendOut fwdEvent else 0

theorem support_processForwardingEvent (inv : Finset ShortChannelID) (st : LossLedger)
    (ev : ForwardingEvent) (h0 : ∀ c ∉ st.keys, st.val c = 0) :
    ∀ c ∉ (processForwardingEvent inv st ev).keys, (processForwardingEvent inv st ev).val c = 0 := by
  intro c hc
  rw [val_processForwardingEvent_wrap]
  rw [keys_processForwardingEvent] at hc
  by_cases hg : eventGuard inv ev
  · rw [if_pos hg] at hc
    simp only [Finset.mem_insert] at hc
    push_neg at hc
    obtain ⟨h1, h2, h3⟩ := hc
    rw [if_neg (fun hh => hh.2.elim h2 h1)]
    exact h0 c h3
  · rw [if_neg hg] at hc
    rw [if_neg (fun hh => hg hh.1)]
    exact h0 c hc

theorem support_fold_processForwardingEvent (inv : Finset ShortChannelID)
    (evs : List ForwardingEvent) :
    ∀ st : LossLedger, (∀ c ∉ st.keys, st.val c = 0) →
      ∀ c ∉ (evs.foldl (processForwardingEvent inv) st).keys,
        (evs.foldl (processForwardingEvent inv) st).val c = 0 := by
  induction evs with
  | nil => intro st h; simpa using h
  | cons ev rest ih =>
    intro st h
    rw [List.foldl_cons]
    exact ih _ (support_processForwardingEvent inv st ev h)

theorem processForwardingEvent_of_guard (inv : Finset ShortChannelID) (st : LossLedger)
    (ev : ForwardingEvent) (hg : eventGuard inv ev) :
    processForwardingEvent inv st ev =
      { keys := insert (NewShortChanIDFromInt ev.chanIdOut)
          (insert (NewShortChanIDFromInt ev.chanIdIn) st.keys)
        val := Function.update
          (Function.update st.val (NewShortChanIDFromInt ev.chanIdIn)
            (i64add (st.val (NewShortChanIDFromInt ev.chanIdIn)) (addendIn ev)))
          (NewShortChanIDFromInt ev.chanIdOut)
          (i64add ((Function.update st.val (NewShortChanIDFromInt ev.chanIdIn)
            (i64add (st.val (NewShortChanIDFromInt ev.chanIdIn)) (addendIn ev)))
              (NewShortChanIDFromInt ev.chanIdOut)) (addendOut ev)) } := by
  unfold eventGuard at hg
  unfold processForwardingEvent addendIn addendOut
  rw [if_neg (not_not_intro hg)]
  simp only [mapUpdate_eq_update]

theorem sum_processForwardingEvent (inv : Finset ShortChannelID) (st : LossLedger)
    (ev : ForwardingEvent) (h0 : ∀ c ∉ st.keys, st.val c = 0) :
    ((processForwardingEvent inv st ev).keys.sum (processForwardingEvent inv st ev).val) %
        18446744073709551616 =
      (st.keys.sum st.val + netDelta inv ev) % 18446744073709551616 := by
  by_cases hg : eventGuard inv ev
  · rw [processForwardingEvent_of_guard inv st ev hg]
    unfold netDelta
    rw [if_pos hg]
    by_cases hio : NewShortChanIDFromInt ev.chanIdIn = NewShortChanIDFromInt ev.chanIdOut
    · rw [hio, Finset.insert_idem]
      simp only [Function.update_same, Function.update_idem]
      have hout1 : NewShortChanIDFromInt ev.chanIdOut ∈
          insert (NewShortChanIDFromInt ev.chanIdOut) st.keys := Finset.mem_insert_self _ _
      rw [Finset.sum_update_of_mem hout1, Finset.sdiff_singleton_eq_erase]
      have hbase1 : st.keys.sum st.val =
          ∑ x ∈ insert (NewShortChanIDFromInt ev.chanIdOut) st.keys, st.val x :=
        Finset.sum_subset (Finset.subset_insert _ _) (fun x _ hnx => h0 x hnx)
      have hd1 : st.val (NewShortChanIDFromInt ev.chanIdOut) +
          ∑ x ∈ (insert (NewShortChanIDFromInt ev.chanIdOut) st.keys).erase
            (NewShortChanIDFromInt ev.chanIdOut), st.val x =
          ∑ x ∈ insert (NewShortChanIDFromInt ev.chanIdOut) st.keys, st.val x :=
        Finset.add_sum_erase _ _ hout1
      rw [hbase1, ← hd1]
      unfold i64add wrap64 two63 two64
      omega
    · have hout2 : NewShortChanIDFromInt ev.chanIdOut ∈ insert (NewShortChanIDFromInt ev.chanIdOut)
          (insert (NewShortChanIDFromInt ev.chanIdIn) st.keys) := Finset.mem_insert_self _ _
      rw [Finset.sum_update_of_mem hout2, Finset.sdiff_singleton_eq_erase]
      have hin2 : NewShortChanIDFromInt ev.chanIdIn ∈ (insert (NewShortChanIDFromInt ev.chanIdOut)
          (insert (NewShortChanIDFromInt ev.chanIdIn) st.keys)).erase
            (NewShortChanIDFromInt ev.chanIdOut) :=
        Finset.mem_erase.mpr ⟨hio, Finset.mem_insert_of_mem (Finset.mem_insert_self _ _)⟩
      rw [Finset.sum_update_of_mem hin2, Finset.sdiff_singleton_eq_erase]
      rw [Function.update_noteq (Ne.symm hio)]
      have hbase : st.keys.sum st.val = ∑ x ∈ insert (NewShortChanIDFromInt ev.chanIdOut)
          (insert (NewShortChanIDFromInt ev.chanIdIn) st.keys), st.val x :=
        Finset.sum_subset
          ((Finset.subset_insert _ _).trans (Finset.subset_insert _ _))
          (fun x _ hnx => h0 x hnx)
      have hd1 : st.val (NewShortChanIDFromInt ev.chanIdOut) +
          ∑ x ∈ (insert (NewShortChanIDFromInt ev.chanIdOut)
            (insert (NewShortChanIDFromInt ev.chanIdIn) st.keys)).erase
              (NewShortChanIDFromInt ev.chanIdOut), st.val x =
          ∑ x ∈ insert (NewShortChanIDFromInt ev.chanIdOut)
            (insert (NewShortChanIDFromInt ev.chanIdIn) st.keys), st.val x :=
        Finset.add_sum_erase _ _ hout2
      have hd2 : st.val (NewShortChanIDFromInt ev.chanIdIn) +
          ∑ x ∈ ((insert (NewShortChanIDFromInt ev.chanIdOut)
            (insert (NewShortChanIDFromInt ev.chanIdIn) st.keys)).erase
              (NewShortChanIDFromInt ev.chanIdOut)).erase
                (NewShortChanIDFromInt ev.chanIdIn), st.val x =
          ∑ x ∈ (insert (NewShortChanIDFromInt ev.chanIdOut)
            (insert (NewShortChanIDFromInt ev.chanIdIn) st.keys)).erase
              (NewShortChanIDFromInt ev.chanIdOut), st.val x :=
        Finset.add_sum_erase _ _ hin2
      rw [hbase, ← hd1, ← hd2]
      unfold i64add wrap64 two63 two64
      omega
  · have hkeys : (processForwardingEvent inv st ev).keys = st.keys := by
      rw [keys_processForwardingEvent, if_neg hg]
    have hval : ∀ c, (processForwardingEvent inv st ev).val c = st.val c := fun c => by
      rw [val_processForwardingEvent_wrap, if_neg (fun hh => hg hh.1)]
    rw [hkeys, Finset.sum_congr rfl (fun c _ => hval c)]
    unfold netDelta
    rw [if_neg hg, add_zero]

theorem sum_fold_processForwardingEvent (inv : Finset ShortChannelID)
    (evs : List ForwardingEvent) :
    ∀ st : LossLedger, (∀ c ∉ st.keys, st.val c = 0) →
      ((evs.foldl (processForwardingEvent inv) st).keys.sum
          (evs.foldl (processForwardingEvent inv) st).val) % 18446744073709551616 =
        (st.keys.sum st.val + (evs.map (netDelta inv)).sum) % 18446744073709551616 := by
  induction evs with
  | nil => intro st _; simp
  | cons ev rest ih =>
    intro st h0
    rw [List.foldl_cons, List.map_cons, List.sum_cons]
    have h1 := ih (processForwardingEvent inv st ev) (support_processForwardingEvent inv st ev h0)
    have h2 := sum_processForwardingEvent inv st ev h0
    omega

theorem sum_chanForwardHistory (inv : Finset ShortChannelID) (evs : List ForwardingEvent) :
    ((chanForwardHistory inv evs).keys.sum (chanForwardHistory inv evs).val) %
        18446744073709551616 =
      ((evs.map (netDelta inv)).sum) % 18446744073709551616 := by
  have h := sum_fold_processForwardingEvent inv evs ⟨∅, fun _ => 0⟩ (fun _ _ => rfl)
  unfold chanForwardHistory
  simpa using h

theorem netDelta_emod_zero (inv : Finset ShortChannelID) (ev : ForwardingEvent)
    (hfe : ev.fee + ev.amtOut = ev.amtIn) :
    netDelta inv ev % 18446744073709551616 = 0 := by
  unfold netDelta addendIn addendOut i64neg toInt64 u64sub wrap64 two63 two64
  split_ifs
  · omega
  · rfl

theorem list_sum_emod_zero (f : ForwardingEvent → Int) (l : List ForwardingEvent)
    (h : ∀ x ∈ l, f x % 18446744073709551616 = 0) :
    (l.map f).sum % 18446744073709551616 = 0 := by
  induction l with
  | nil => rfl
  | cons x xs ih =>
    rw [List.map_cons, List.sum_cons]
    have h1 := h x (List.mem_cons_self x xs)
    have h2 := ih (fun y hy => h y (List.mem_cons_of_mem x hy))
    omega

theorem mem_keys_viewInsertChannel (view : SubjectiveChanView) (ch : Nat × Int)
    (c : ShortChannelID) :
    c ∈ (viewInsertChannel view ch).keys ↔
      c ∈ view.keys ∨ c = NewShortChanIDFromInt ch.1 := by
  simp only [viewInsertChannel]
  split_ifs with h
  · constructor
    · exact Or.inl
    · rintro (hc | rfl)
      · exact hc
      · exact h
  · simp

theorem nodup_keys_foldl_viewInsert (channels : List (Nat × Int)) :
    ∀ view : SubjectiveChanView, view.keys.Nodup →
      ((channels.foldl viewInsertChannel view).keys).Nodup := by
  induction channels with
  | nil => intro view h; simpa using h
  | cons ch rest ih =>
    intro view h
    rw [List.foldl_cons]
    apply ih
    simp only [viewInsertChannel]
    split_ifs with hmem
    · exact h
    · simp [List.nodup_append, h, hmem]

theorem nodup_keys_buildSubjectiveChanView (channels : List (Nat × Int)) :
    ((buildSubjectiveChanView channels).keys).Nodup :=
  nodup_keys_foldl_viewInsert channels ⟨[], fun _ => 0⟩ List.nodup_nil

theorem mem_keys_foldl_viewInsert (channels : List (Nat × Int)) :
    ∀ (view : SubjectiveChanView) (c : ShortChannelID),
      c ∈ (channels.foldl viewInsertChannel view).keys ↔
        c ∈ view.keys ∨ ∃ p ∈ channels, NewShortChanIDFromInt p.1 = c := by
  induction channels with
  | nil => intro view c; simp
  | cons ch rest ih =>
    intro view c
    rw [List.foldl_cons, ih, mem_keys_viewInsertChannel]
    constructor
    · rintro ((hc | rfl) | ⟨p, hp, hpc⟩)
      · exact Or.inl hc
      · exact Or.inr ⟨ch, List.mem_cons_self _ _, rfl⟩
      · exact Or.inr ⟨p, List.mem_cons_of_mem _ hp, hpc⟩
    · rintro (hc | ⟨p, hp, hpc⟩)
      · exact Or.inl (Or.inl hc)
      · rcases List.mem_cons.mp hp with rfl | hp
        · exact Or.inl (Or.inr hpc.symm)
        · exact Or.inr ⟨p, hp, hpc⟩

theorem mem_keys_buildSubjectiveChanView (channels : List (Nat × Int)) (c : ShortChannelID) :
    c ∈ (buildSubjectiveChanView channels).keys ↔
      ∃ p ∈ channels, NewShortChanIDFromInt p.1 = c := by
  unfold buildSubjectiveChanView
  rw [mem_keys_foldl_viewInsert]
  simp

theorem cap_foldl_viewInsert (channels : List (Nat × Int)) :
    ∀ (view : SubjectiveChanView) (c : ShortChannelID),
      (channels.foldl viewInsertChannel view).cap c =
        (((channels.filter (fun p => NewShortChanIDFromInt p.1 = c)).map Prod.snd).getLast?).getD
          (view.cap c) := by
  induction channels with
  | nil => intro view c; simp
  | cons ch rest ih =>
    intro view c
    rw [List.foldl_cons, ih]
    by_cases hp : NewShortChanIDFromInt ch.1 = c
    · have hcap : (viewInsertChannel view ch).cap c = ch.2 := by
        unfold viewInsertChannel mapUpdate
        simp [hp.symm]
      rw [hcap]
      rw [List.filter_cons_of_pos (by simpa using hp)]
      rw [List.map_cons]
      cases hl : (rest.filter (fun p => NewShortChanIDFromInt p.1 = c)).map Prod.snd with
      | nil => simp [hl]
      | cons x xs => simp [hl, List.getLast?_cons_cons, List.getLast?_cons]
    · have hcp : ¬(c = NewShortChanIDFromInt ch.1) := fun h => hp h.symm
      have hcap : (viewInsertChannel view ch).cap c = view.cap c := by
        simp only [viewInsertChannel, mapUpdate]
        rw [if_neg hcp]
      rw [hcap, List.filter_cons_of_neg (by simpa using hp)]

theorem cap_buildSubjectiveChanView (channels : List (Nat × Int)) (c : ShortChannelID) :
    (buildSubjectiveChanView channels).cap c =
      (((channels.filter (fun p => NewShortChanIDFromInt p.1 = c)).map Prod.snd).getLast?).getD 0 :=
  cap_foldl_viewInsert channels ⟨[], fun _ => 0⟩ c

theorem runAudit_of_empty (channels : List (Nat × Int)) (getChanInfo : ShortChannelID → Option Int)
    (h : (runDetector getChanInfo (buildSubjectiveChanView channels)).invalidChannels = ∅)
    (forwardingHistory : Option (List ForwardingEvent)) :
    runAudit (some channels) getChanInfo forwardingHistory = some AuditResult.notAffected := by
  simp only [runAudit]
  rw [if_pos h]

theorem runAudit_of_nonempty (channels : List (Nat × Int))
    (getChanInfo : ShortChannelID → Option Int) (evs : List ForwardingEvent)
    (h : (runDetector getChanInfo (buildSubjectiveChanView channels)).invalidChannels ≠ ∅) :
    runAudit (some channels) getChanInfo (some evs) =
      some (AuditResult.affected
        (chanForwardHistory
          (runDetector getChanInfo (buildSubjectiveChanView channels)).invalidChannels evs)
        (computeTotalLoss (chanForwardHistory
          (runDetector getChanInfo (buildSubjectiveChanView channels)).invalidChannels evs))) := by
  simp only [runAudit]
  rw [if_neg h]

/-- A second forwarding event used in concrete instantiations: inbound over
`B`, outbound over `A`. -/
def evBA : ForwardingEvent :=
  { chanIdIn := 2, chanIdOut := 1, amtIn := 50000, amtOut := 49000, fee := 1000 }

/-- C9: decoding a raw 64-bit channel id into the structured (block height,
transaction index, output index) triple and re-encoding it yields the
original integer: the two representations round-trip losslessly for every
64-bit value. -/
theorem channelID_roundtrip (n : Nat) (h : n < 18446744073709551616) :
    (NewShortChanIDFromInt n).toUint64 = n := by
  unfold NewShortChanIDFromInt ShortChannelID.toUint64
  dsimp only
  simp only [Nat.mod_mod]
  have h1 : (n >>> 40) % 4294967296 = n >>> 40 :=
    Nat.mod_eq_of_lt (lt_trans (shiftRight40_lt n h) (by norm_num))
  have h2 : (n >>> 16) &&& 0xFFFFFF = (n >>> 16) % 16777216 := by
    have hx := Nat.and_pow_two_sub_one_eq_mod (n >>> 16) 24
    norm_num at hx
    exact hx
  have h3 : n &&& 0xFFFF = n % 65536 := by
    have hx := Nat.and_pow_two_sub_one_eq_mod n 16
    norm_num at hx
    exact hx
  have h2' : ((n >>> 16) &&& 0xFFFFFF) % 4294967296 = (n >>> 16) % 16777216 := by
    rw [h2]
    exact Nat.mod_eq_of_lt (lt_trans (Nat.mod_lt _ (by norm_num)) (by norm_num))
  have h3' : (n &&& 0xFFFF) % 65536 = n % 65536 := by
    rw [h3, Nat.mod_mod]
  rw [h1, h2', h3', toUint64_fromInt_aux]
  exact Nat.mod_eq_of_lt h

/-- Witness for the round-trip theorem at the concrete id
`0x0123456789ABCDEF`. -/
theorem channelID_roundtrip_witness :
    81985529216486895 < 18446744073709551616 ∧
    (NewShortChanIDFromInt 81985529216486895).toUint64 = 81985529216486895 :=
  ⟨by norm_num, channelID_roundtrip 81985529216486895 (by norm_num)⟩

/-- C4: for every subjective view and authoritative source, a channel is in
`InvalidChannelSet` iff it is a channel of the view and either its
authoritative query fails / answers not-found or the returned capacity
differs (exact integer inequality) from the subjective capacity.  The
right-hand side mentions only that channel's own query and capacities, so
each channel is classified independently of all others. -/
theorem invalidChannels_iff (view : SubjectiveChanView)
    (getChanInfo : ShortChannelID → Option Int) (c : ShortChannelID) :
    c ∈ (runDetector getChanInfo view).invalidChannels ↔
      c ∈ view.keys ∧ (getChanInfo c = none ∨
        ∃ cap, getChanInfo c = some cap ∧ cap ≠ view.cap c) := by
  rw [mem_runDetector_invalid]
  rfl

/-- C5: if the detector classifies no channel invalid, the audit reports
exactly "not affected", and it does so for every forwarding-history
capability — including an unavailable one — so the Loss Quantifier is never
invoked and no total loss is computed. -/
theorem audit_notAffected_of_no_invalid (channels : List (Nat × Int))
    (getChanInfo : ShortChannelID → Option Int)
    (h : (runDetector getChanInfo (buildSubjectiveChanView channels)).invalidChannels = ∅) :
    ∀ forwardingHistory : Option (List ForwardingEvent),
      runAudit (some channels) getChanInfo forwardingHistory = some AuditResult.notAffected ∧
        reportedTotalLoss (runAudit (some channels) getChanInfo forwardingHistory) = none :=
  fun forwardingHistory =>
    ⟨runAudit_of_empty channels getChanInfo h forwardingHistory, by
      rw [runAudit_of_empty channels getChanInfo h forwardingHistory]
      rfl⟩

/-- Witness for C5: a single channel whose authoritative capacity matches,
with the forwarding-history capability failing (`none`): still "not
affected". -/
theorem audit_notAffected_witness :
    (runDetector (fun _ => some 500000)
      (buildSubjectiveChanView [(1, 500000)])).invalidChannels = ∅ ∧
    runAudit (some [(1, 500000)]) (fun _ => some 500000) none =
      some AuditResult.notAffected :=
  ⟨by decide, (audit_notAffected_of_no_invalid [(1, 500000)] (fun _ => some 500000)
    (by decide) none).1⟩

/-- C3: with a non-empty invalid-channel set and a forwarding ledger in
which every event's fee equals its amount-in minus its amount-out (the
spec's own definition of the fee field), the computed total loss is exactly
0: every processed event adds `-(amount-in - fee)` to the inbound entry and
`+amount-out` to the outbound entry unconditionally, and the two cancel. -/
theorem totalLoss_zero_of_consistent_fees (inv : Finset ShortChannelID)
    (evs : List ForwardingEvent) (hinv : inv.Nonempty)
    (hfee : ∀ ev ∈ evs, ev.fee + ev.amtOut = ev.amtIn) :
    computeTotalLoss (chanForwardHistory inv evs) = 0 := by
  rw [computeTotalLoss_eq_wrap_sum]
  apply wrap64_eq_zero_of_emod
  have h1 := sum_chanForwardHistory inv evs
  have h2 := list_sum_emod_zero (netDelta inv) evs
    (fun ev hev => netDelta_emod_zero inv ev (hfee ev hev))
  omega

/-- Witness for C3 at the end-to-end scenario's event. -/
theorem totalLoss_zero_witness :
    ({cidA} : Finset ShortChannelID).Nonempty ∧
    (∀ ev ∈ [evAB], ev.fee + ev.amtOut = ev.amtIn) ∧
    computeTotalLoss (chanForwardHistory {cidA} [evAB]) = 0 :=
  ⟨⟨cidA, Finset.mem_singleton_self cidA⟩, by decide,
    totalLoss_zero_of_consistent_fees {cidA} [evAB]
      ⟨cidA, Finset.mem_singleton_self cidA⟩ (by decide)⟩

/-- C7: the loss-ledger fold is order independent: any permutation of the
forwarding event sequence yields an identical `LossLedger` and an identical
`TotalLoss`. -/
theorem lossLedger_perm_invariant (inv : Finset ShortChannelID)
    (l1 l2 : List ForwardingEvent) (p : l1.Perm l2) :
    chanForwardHistory inv l1 = chanForwardHistory inv l2 ∧
      computeTotalLoss (chanForwardHistory inv l1) =
        computeTotalLoss (chanForwardHistory inv l2) := by
  have h := chanForwardHistory_perm inv p
  exact ⟨h, by rw [h]⟩

/-- Witness for C7: swapping a two-event history. -/
theorem lossLedger_perm_invariant_witness :
    ([evAB, evBA].Perm [evBA, evAB]) ∧
    chanForwardHistory {cidA} [evAB, evBA] = chanForwardHistory {cidA} [evBA, evAB] :=
  ⟨List.Perm.swap evBA evAB [],
    (lossLedger_perm_invariant {cidA} [evAB, evBA] [evBA, evAB]
      (List.Perm.swap evBA evAB [])).1⟩

/-- C8: a failed authoritative lookup for one channel does not abort the
audit: the channel is classified invalid, a diagnostic carrying its id is
logged, the audit still produces a result when the listing and
forwarding-history calls succeed, and every other channel of the view is
still classified by its own query alone. -/
theorem lookup_failure_not_fatal (channels : List (Nat × Int))
    (getChanInfo : ShortChannelID → Option Int) (cid : ShortChannelID)
    (hmem : cid ∈ (buildSubjectiveChanView channels).keys)
    (hfail : getChanInfo cid = none) :
    cid ∈ (runDetector getChanInfo (buildSubjectiveChanView channels)).invalidChannels ∧
    Diagnostic.lookupFailure cid ∈
      (runDetector getChanInfo (buildSubjectiveChanView channels)).diagnostics ∧
    (∀ evs : List ForwardingEvent,
      runAudit (some channels) getChanInfo (some evs) ≠ none) ∧
    (∀ c ∈ (buildSubjectiveChanView channels).keys, c ≠ cid →
      (c ∈ (runDetector getChanInfo (buildSubjectiveChanView channels)).invalidChannels ↔
        invalidCond getChanInfo (buildSubjectiveChanView channels) c)) := by
  have hinv : cid ∈ (runDetector getChanInfo
      (buildSubjectiveChanView channels)).invalidChannels :=
    (mem_runDetector_invalid getChanInfo (buildSubjectiveChanView channels) cid).mpr
      ⟨hmem, Or.inl hfail⟩
  refine ⟨hinv, ?_, ?_, ?_⟩
  · exact (lookupFailure_mem_runDetector getChanInfo
      (buildSubjectiveChanView channels) cid).mpr ⟨hmem, hfail⟩
  · intro evs
    have hne : (runDetector getChanInfo
        (buildSubjectiveChanView channels)).invalidChannels ≠ ∅ := by
      intro he
      rw [he] at hinv
      exact Finset.not_mem_empty cid hinv
    rw [runAudit_of_nonempty channels getChanInfo evs hne]
    simp
  · intro c hc _
    rw [mem_runDetector_invalid]
    exact ⟨fun hx => hx.2, fun hx => ⟨hc, hx⟩⟩

/-- Witness for C8: two listed channels, the query failing for the first
and succeeding for the second. -/
theorem lookup_failure_not_fatal_witness :
    cidA ∈ (buildSubjectiveChanView [(1, 500000), (2, 300000)]).keys ∧
    (fun c => if c = cidB then some (300000 : Int) else none) cidA = none ∧
    cidA ∈ (runDetector (fun c => if c = cidB then some (300000 : Int) else none)
      (buildSubjectiveChanView [(1, 500000), (2, 300000)])).invalidChannels ∧
    Diagnostic.lookupFailure cidA ∈ (runDetector
      (fun c => if c = cidB then some (300000 : Int) else none)
      (buildSubjectiveChanView [(1, 500000), (2, 300000)])).diagnostics ∧
    runAudit (some [(1, 500000), (2, 300000)])
      (fun c => if c = cidB then some (300000 : Int) else none) (some [evAB]) ≠ none := by
  have h := lookup_failure_not_fatal [(1, 500000), (2, 300000)]
    (fun c => if c = cidB then some (300000 : Int) else none) cidA (by decide) (by decide)
  exact ⟨by decide, by decide, h.1, h.2.1, h.2.2.1 [evAB]⟩

/-- C10: when the same channel id occurs more than once in the listing, the
built subjective view keeps exactly one entry for it, and the stored
capacity is the last-listed one. -/
theorem subjectiveView_last_write_wins (channels : List (Nat × Int)) (c : ShortChannelID)
    (hdup : 1 < (channels.filter (fun p => NewShortChanIDFromInt p.1 = c)).length) :
    (buildSubjectiveChanView channels).keys.count c = 1 ∧
    some ((buildSubjectiveChanView channels).cap c) =
      ((channels.filter (fun p => NewShortChanIDFromInt p.1 = c)).map Prod.snd).getLast? := by
  have hne : channels.filter (fun p => NewShortChanIDFromInt p.1 = c) ≠ [] := by
    intro h
    rw [h] at hdup
    simp at hdup
  constructor
  · apply List.count_eq_one_of_mem (nodup_keys_buildSubjectiveChanView channels)
    rw [mem_keys_buildSubjectiveChanView]
    obtain ⟨p, hp⟩ := List.exists_mem_of_ne_nil _ hne
    have hp1 := List.mem_filter.mp hp
    exact ⟨p, hp1.1, by simpa using hp1.2⟩
  · rw [cap_buildSubjectiveChanView]
    have hmne : (channels.filter (fun p => NewShortChanIDFromInt p.1 = c)).map Prod.snd ≠ [] := by
      intro h
      exact hne (List.map_eq_nil_iff.mp h)
    cases hx : ((channels.filter (fun p => NewShortChanIDFromInt p.1 = c)).map Prod.snd).getLast? with
    | none => exact absurd (List.getLast?_eq_none_iff.mp hx) hmne
    | some v => simp [hx]

/-- Witness for C10: the id `1` listed twice with capacities 400000 then
500000; the view keeps one entry with capacity 500000. -/
theorem subjectiveView_last_write_wins_witness :
    1 < (([((1 : Nat), (400000 : Int)), (1, 500000)]).filter
      (fun p => NewShortChanIDFromInt p.1 = cidA)).length ∧
    (buildSubjectiveChanView [((1 : Nat), (400000 : Int)), (1, 500000)]).keys.count cidA = 1 ∧
    some ((buildSubjectiveChanView [((1 : Nat), (400000 : Int)), (1, 500000)]).cap cidA) =
      ((([((1 : Nat), (400000 : Int)), (1, 500000)]).filter
        (fun p => NewShortChanIDFromInt p.1 = cidA)).map Prod.snd).getLast? :=
  ⟨by decide, subjectiveView_last_write_wins [((1 : Nat), (400000 : Int)), (1, 500000)] cidA
    (by decide)⟩

/-- C1 (evaluation of the spec's end-to-end scenario): subjective view
{A ↦ 500000} with the authoritative source answering not-found for every
query, forwarding ledger with the single event
(in=A, amount-in=100000, fee=100, out=B, amount-out=99900).
`InvalidChannelSet = {A}` as the spec expects, but the program's loss
report is {A ↦ -99900, B ↦ +99900} with `TotalLoss = 0`, not
{A ↦ -99900} with `TotalLoss = -99900`: the outbound `+=` is applied to
the valid channel B as well, cancelling the inbound debit. -/
theorem endToEnd_scenario_evaluation :
    (runDetector (fun _ => none) (buildSubjectiveChanView [(1, 500000)])).invalidChannels
      = {cidA} ∧
    reportedChannelLoss (runAudit (some [(1, 500000)]) (fun _ => none) (some [evAB])) cidA
      = some (-99900) ∧
    reportedChannelLoss (runAudit (some [(1, 500000)]) (fun _ => none) (some [evAB])) cidB
      = some 99900 ∧
    reportedTotalLoss (runAudit (some [(1, 500000)]) (fun _ => none) (some [evAB]))
      = some 0 :=
  ⟨by decide, by decide, by decide, by decide⟩

/-- C2 (evaluation at the failing input): with `InvalidChannelSet = {A}` and
the single event (in=A, out=B), the resulting ledger has an entry for the
valid channel B: the outbound adjustment is not guarded by the invalidity
of the outbound leg, so the ledger's keys are not restricted to the invalid
set. -/
theorem lossLedger_key_outside_invalid_set :
    cidB ∈ (chanForwardHistory {cidA} [evAB]).keys ∧
    cidB ∉ ({cidA} : Finset ShortChannelID) ∧
    (chanForwardHistory {cidA} [evAB]).val cidB = 99900 :=
  ⟨by decide, by decide, by decide⟩

/-- C6 (evaluation at the failing input): for subjective view
{channel 1 ↦ 500000} and authoritative capacity 400000, the detector emits
exactly one fake-channel diagnostic; it carries the authoritative and
subjective capacities but its `CID` line has no operand
(`log.Printf("CID: %v")` passes no argument), so the record carries no
channel id. -/
theorem fakeChannel_diagnostic_missing_cid :
    (runDetector (fun _ => some 400000) (buildSubjectiveChanView [(1, 500000)])).diagnostics =
      [Diagnostic.fakeChannel none 400000 500000] := by
  decide
